import Mathlib

/-!
Verification of the sub-pixel phase-registration core of `stretchablecorr`
(`stretchablecorr/opti_registration.py` and `stretchablecorr/stretchablecorr.py`)
against its natural-language specification.

The Python source is shallowly embedded: 2D arrays become functions
`Fin H → Fin W → ℂ` (or `ℝ`), machine floats become exact reals/complexes,
and the external `scipy.optimize.minimize` call is abstracted as an oracle
parameter producing an `OptimizeResult`.  Fallible code (numpy broadcasting,
`crop`'s bounds check) is embedded with `Except`.
-/

open Finset

/-- The constant `im2pi = 1j * 2 * np.pi` used throughout
`opti_registration.py` (lines 44 and 68). -/
noncomputable def im2pi : ℂ := Complex.I * 2 * Real.pi

/-- The integer-valued array `results` built by `custom_fftfreq`
(opti_registration.py lines 21-26): `results[:N] = arange(0, N)` and
`results[N:] = arange(-(n//2), 0)` with `N = (n-1)//2 + 1`.
For an index `k` in the second block, `results[k] = -(n//2) + (k - N)`. -/
def fftfreq_results (n : ℕ) (k : Fin n) : ℤ :=
  if (k : ℕ) < (n - 1) / 2 + 1 then (k : ℕ)
  else -((n : ℤ) / 2) + ((k : ℕ) - ((n - 1) / 2 + 1) : ℕ)

/-- Embedding of `custom_fftfreq` (opti_registration.py lines 14-27): the integer array
`results` scaled by `val = 1.0/n`. -/
noncomputable def custom_fftfreq (n : ℕ) (k : Fin n) : ℝ :=
  (fftfreq_results n k : ℝ) * (1 / n)

/-- Claim C3: for every `n ≥ 1` (vacuous at `n = 0` since `Fin 0` is empty)
and every index `k`, `custom_fftfreq n k` equals `k/n` for
`0 ≤ k ≤ (n-1)/2` and `(k-n)/n` for the remaining indices — exactly the
standard non-shifted DFT sample-frequency layout. -/
theorem custom_fftfreq_eq_standard (n : ℕ) (k : Fin n) :
    custom_fftfreq n k =
      if (k : ℕ) ≤ (n - 1) / 2 then ((k : ℕ) : ℝ) / n
      else (((k : ℕ) : ℝ) - n) / n := by
  unfold custom_fftfreq fftfreq_results
  by_cases h : (k : ℕ) < (n - 1) / 2 + 1
  · rw [if_pos h, if_pos (Nat.lt_succ_iff.mp h)]
    push_cast
    ring
  · rw [if_neg h, if_neg (fun hle => h (Nat.lt_succ_iff.mpr hle))]
    have hN : (k : ℕ) ≥ (n - 1) / 2 + 1 := Nat.le_of_not_lt h
    have hint : -((n : ℤ) / 2) + (((k : ℕ) - ((n - 1) / 2 + 1) : ℕ) : ℤ)
        = (k : ℕ) - (n : ℤ) := by omega
    rw [hint]
    push_cast
    ring

/-- Embedding of `dft_dot` (opti_registration.py lines 30-51): evaluates the 2D DFT of a
complex `H × W` array at an arbitrary real position `(y, x)`.
Source: `yky = exp(im2pi*y*custom_fftfreq(H))`, `xkx = exp(im2pi*x*custom_fftfreq(W))`,
`a = np.dot(A, xkx)` (row-indexed inner sums), then `a = np.dot(a, yky)` and
`return a / A.size` with `A.size = H*W`. -/
noncomputable def dft_dot {H W : ℕ} (A : Fin H → Fin W → ℂ) (yx : ℝ × ℝ) : ℂ :=
  (∑ r, (∑ c, A r c * Complex.exp (im2pi * yx.2 * custom_fftfreq W c)) *
      Complex.exp (im2pi * yx.1 * custom_fftfreq H r)) / ((H * W : ℕ) : ℂ)

/-- Claim C1: `dft_dot A (y, x)` equals the plain inverse-style DFT double
sum `(1/(H*W)) * Σ_{r,c} A[r,c] * exp(i·2π·(y·freq_H[r] + x·freq_W[c]))`
with the standard (non-shifted) sample-frequency sequences.  Stated for all
`H`, `W` (hence in particular for `H ≥ 1`, `W ≥ 1`), and for all real
coordinates, so integer coordinates are a special case. -/
theorem dft_dot_eq_double_sum {H W : ℕ} (A : Fin H → Fin W → ℂ) (y x : ℝ) :
    dft_dot A (y, x) =
      (1 / ((H * W : ℕ) : ℂ)) *
        ∑ r, ∑ c, A r c *
          Complex.exp (Complex.I * 2 * Real.pi *
            ((y * custom_fftfreq H r + x * custom_fftfreq W c : ℝ) : ℂ)) := by
  unfold dft_dot
  rw [div_eq_mul_inv, mul_comm, one_div]
  congr 1
  rw [Finset.sum_congr rfl (fun r _ => Finset.sum_mul _ _ _)]
  refine Finset.sum_congr rfl fun r _ => Finset.sum_congr rfl fun c _ => ?_
  have harg : Complex.I * 2 * Real.pi *
        ((y * custom_fftfreq H r + x * custom_fftfreq W c : ℝ) : ℂ)
      = im2pi * x * custom_fftfreq W c + im2pi * y * custom_fftfreq H r := by
    unfold im2pi
    push_cast
    ring
  rw [harg, Complex.exp_add]
  ring

/-- Embedding of `grad_dft` (opti_registration.py lines 54-82): the analytic gradient of
`dft_dot` with respect to the position.  Source: `kx = im2pi*custom_fftfreq(W)`,
`ky = im2pi*custom_fftfreq(H)`, `exp_kx = exp(x*kx)`, `exp_ky = exp(y*ky)`;
`gradx = np.dot(np.dot(data, exp_kx*kx), exp_ky)`,
`grady = np.dot(np.dot(data.T, exp_ky*ky), exp_kx)`, and the function returns
`np.array([grady, gradx]) / data.size`.  The pair below is `(grady, gradx)`,
each divided by `H*W`. -/
noncomputable def grad_dft {H W : ℕ} (data : Fin H → Fin W → ℂ) (yx : ℝ × ℝ) : ℂ × ℂ :=
  ((∑ c, (∑ r, data r c *
        (Complex.exp ((yx.1 : ℂ) * (im2pi * custom_fftfreq H r)) *
          (im2pi * custom_fftfreq H r))) *
      Complex.exp ((yx.2 : ℂ) * (im2pi * custom_fftfreq W c))) / ((H * W : ℕ) : ℂ),
   (∑ r, (∑ c, data r c *
        (Complex.exp ((yx.2 : ℂ) * (im2pi * custom_fftfreq W c)) *
          (im2pi * custom_fftfreq W c))) *
      Complex.exp ((yx.1 : ℂ) * (im2pi * custom_fftfreq H r))) / ((H * W : ℕ) : ℂ))

/-- Merging the two per-axis exponential factors into the single canonical
DFT exponential. -/
theorem exp_pair_eq {H W : ℕ} (y x : ℝ) (r : Fin H) (c : Fin W) :
    Complex.exp ((y : ℂ) * (im2pi * custom_fftfreq H r)) *
      Complex.exp ((x : ℂ) * (im2pi * custom_fftfreq W c))
    = Complex.exp (Complex.I * 2 * Real.pi *
        ((y * custom_fftfreq H r + x * custom_fftfreq W c : ℝ) : ℂ)) := by
  rw [← Complex.exp_add]
  congr 1
  unfold im2pi
  push_cast
  ring

/-- Derivative of `t ↦ exp (k * t)` along the real line, for complex `k`. -/
theorem hasDerivAt_cexp_real_mul (k : ℂ) (t : ℝ) :
    HasDerivAt (fun s : ℝ => Complex.exp (k * s)) (k * Complex.exp (k * t)) t := by
  have h1 : HasDerivAt (fun z : ℂ => Complex.exp (k * z))
      (Complex.exp (k * (t : ℂ)) * k) (t : ℂ) := by
    simpa using ((hasDerivAt_id ((t : ℂ))).const_mul k).cexp
  simpa [mul_comm] using h1.comp_ofReal

/-- First component of `grad_dft` as the canonical weighted double sum. -/
theorem grad_dft_fst_sum {H W : ℕ} (data : Fin H → Fin W → ℂ) (y x : ℝ) :
    (grad_dft data (y, x)).1 =
      (1 / ((H * W : ℕ) : ℂ)) *
        ∑ r, ∑ c, data r c * (im2pi * custom_fftfreq H r) *
          Complex.exp (Complex.I * 2 * Real.pi *
            ((y * custom_fftfreq H r + x * custom_fftfreq W c : ℝ) : ℂ)) := by
  simp only [grad_dft]
  rw [div_eq_mul_inv, mul_comm, one_div]
  congr 1
  simp only [Finset.sum_mul]
  rw [Finset.sum_comm]
  refine Finset.sum_congr rfl fun r _ => Finset.sum_congr rfl fun c _ => ?_
  rw [← exp_pair_eq]
  ring

/-- Second component of `grad_dft` as the canonical weighted double sum. -/
theorem grad_dft_snd_sum {H W : ℕ} (data : Fin H → Fin W → ℂ) (y x : ℝ) :
    (grad_dft data (y, x)).2 =
      (1 / ((H * W : ℕ) : ℂ)) *
        ∑ r, ∑ c, data r c * (im2pi * custom_fftfreq W c) *
          Complex.exp (Complex.I * 2 * Real.pi *
            ((y * custom_fftfreq H r + x * custom_fftfreq W c : ℝ) : ℂ)) := by
  simp only [grad_dft]
  rw [div_eq_mul_inv, mul_comm, one_div]
  congr 1
  simp only [Finset.sum_mul]
  refine Finset.sum_congr rfl fun r _ => Finset.sum_congr rfl fun c _ => ?_
  rw [← exp_pair_eq]
  ring

/-- The first component of `grad_dft` is the partial derivative of
`dft_dot` with respect to the `y` coordinate. -/
theorem hasDerivAt_dft_dot_y {H W : ℕ} (data : Fin H → Fin W → ℂ) (y x : ℝ) :
    HasDerivAt (fun t : ℝ => dft_dot data (t, x)) ((grad_dft data (y, x)).1) y := by
  have hy : (fun t : ℝ => dft_dot data (t, x))
      = fun t : ℝ =>
        (∑ r, (∑ c, data r c * Complex.exp (im2pi * (x : ℝ) * custom_fftfreq W c)) *
          Complex.exp ((im2pi * custom_fftfreq H r) * (t : ℝ))) / ((H * W : ℕ) : ℂ) := by
    funext t
    unfold dft_dot
    congr 1
    refine Finset.sum_congr rfl fun r _ => ?_
    congr 1
    congr 1
    ring
  have hD : HasDerivAt (fun t : ℝ => dft_dot data (t, x))
      ((∑ r, (∑ c, data r c * Complex.exp (im2pi * (x : ℝ) * custom_fftfreq W c)) *
          ((im2pi * custom_fftfreq H r) * Complex.exp ((im2pi * custom_fftfreq H r) * (y : ℝ)))) /
        ((H * W : ℕ) : ℂ)) y := by
    rw [hy]
    exact (HasDerivAt.sum fun r _ =>
      (hasDerivAt_cexp_real_mul (im2pi * custom_fftfreq H r) y).const_mul _).div_const _
  have hcanon :
      (∑ r, (∑ c, data r c * Complex.exp (im2pi * (x : ℝ) * custom_fftfreq W c)) *
          ((im2pi * custom_fftfreq H r) * Complex.exp ((im2pi * custom_fftfreq H r) * (y : ℝ)))) /
        ((H * W : ℕ) : ℂ)
      = (grad_dft data (y, x)).1 := by
    rw [grad_dft_fst_sum]
    rw [div_eq_mul_inv, mul_comm, one_div]
    congr 1
    simp only [Finset.sum_mul]
    refine Finset.sum_congr rfl fun r _ => Finset.sum_congr rfl fun c _ => ?_
    have e1 : im2pi * ((x : ℝ) : ℂ) * (custom_fftfreq W c : ℝ)
        = ((x : ℝ) : ℂ) * (im2pi * (custom_fftfreq W c : ℝ)) := by ring
    have e2 : (im2pi * (custom_fftfreq H r : ℝ)) * ((y : ℝ) : ℂ)
        = ((y : ℝ) : ℂ) * (im2pi * (custom_fftfreq H r : ℝ)) := by ring
    rw [e1, e2, ← exp_pair_eq]
    ring
  rw [← hcanon]
  exact hD

/-- The second component of `grad_dft` is the partial derivative of
`dft_dot` with respect to the `x` coordinate. -/
theorem hasDerivAt_dft_dot_x {H W : ℕ} (data : Fin H → Fin W → ℂ) (y x : ℝ) :
    HasDerivAt (fun t : ℝ => dft_dot data (y, t)) ((grad_dft data (y, x)).2) x := by
  have hx : (fun t : ℝ => dft_dot data (y, t))
      = fun t : ℝ =>
        (∑ r, (∑ c, data r c * Complex.exp ((im2pi * custom_fftfreq W c) * (t : ℝ))) *
          Complex.exp (im2pi * (y : ℝ) * custom_fftfreq H r)) / ((H * W : ℕ) : ℂ) := by
    funext t
    unfold dft_dot
    congr 1
    refine Finset.sum_congr rfl fun r _ => ?_
    congr 1
    refine Finset.sum_congr rfl fun c _ => ?_
    congr 1
    congr 1
    ring
  have hD : HasDerivAt (fun t : ℝ => dft_dot data (y, t))
      ((∑ r, (∑ c, data r c *
          ((im2pi * custom_fftfreq W c) * Complex.exp ((im2pi * custom_fftfreq W c) * (x : ℝ)))) *
        Complex.exp (im2pi * (y : ℝ) * custom_fftfreq H r)) / ((H * W : ℕ) : ℂ)) x := by
    rw [hx]
    exact (HasDerivAt.sum fun r _ =>
      (HasDerivAt.sum fun c _ =>
        (hasDerivAt_cexp_real_mul (im2pi * custom_fftfreq W c) x).const_mul _).mul_const _).div_const _
  have hcanon :
      (∑ r, (∑ c, data r c *
          ((im2pi * custom_fftfreq W c) * Complex.exp ((im2pi * custom_fftfreq W c) * (x : ℝ)))) *
        Complex.exp (im2pi * (y : ℝ) * custom_fftfreq H r)) / ((H * W : ℕ) : ℂ)
      = (grad_dft data (y, x)).2 := by
    rw [grad_dft_snd_sum]
    rw [div_eq_mul_inv, mul_comm, one_div]
    congr 1
    simp only [Finset.sum_mul]
    refine Finset.sum_congr rfl fun r _ => Finset.sum_congr rfl fun c _ => ?_
    have e1 : (im2pi * (custom_fftfreq W c : ℝ)) * ((x : ℝ) : ℂ)
        = ((x : ℝ) : ℂ) * (im2pi * (custom_fftfreq W c : ℝ)) := by ring
    have e2 : im2pi * ((y : ℝ) : ℂ) * (custom_fftfreq H r : ℝ)
        = ((y : ℝ) : ℂ) * (im2pi * (custom_fftfreq H r : ℝ)) := by ring
    rw [e1, e2, ← exp_pair_eq]
    ring
  rw [← hcanon]
  exact hD

/-- Claim C2: `grad_dft data (y, x)` returns the 2-vector
`(∂value/∂y, ∂value/∂x)` of analytic partial derivatives of the frequency
evaluator `dft_dot`, and each component is the same `(1/(H*W))`-scaled
weighted double sum as `dft_dot` with an extra factor `i·2π·freq[k]`
inserted for the corresponding axis. -/
theorem grad_dft_is_gradient {H W : ℕ} (data : Fin H → Fin W → ℂ) (y x : ℝ) :
    (grad_dft data (y, x)).1 =
      (1 / ((H * W : ℕ) : ℂ)) *
        ∑ r, ∑ c, data r c * (im2pi * custom_fftfreq H r) *
          Complex.exp (Complex.I * 2 * Real.pi *
            ((y * custom_fftfreq H r + x * custom_fftfreq W c : ℝ) : ℂ))
    ∧ (grad_dft data (y, x)).2 =
      (1 / ((H * W : ℕ) : ℂ)) *
        ∑ r, ∑ c, data r c * (im2pi * custom_fftfreq W c) *
          Complex.exp (Complex.I * 2 * Real.pi *
            ((y * custom_fftfreq H r + x * custom_fftfreq W c : ℝ) : ℂ))
    ∧ HasDerivAt (fun t : ℝ => dft_dot data (t, x)) ((grad_dft data (y, x)).1) y
    ∧ HasDerivAt (fun t : ℝ => dft_dot data (y, t)) ((grad_dft data (y, x)).2) x :=
  ⟨grad_dft_fst_sum data y x, grad_dft_snd_sum data y x,
   hasDerivAt_dft_dot_y data y x, hasDerivAt_dft_dot_x data y x⟩

/-- Model of `scipy.signal.windows.blackman` (external collaborator), modelled from its
documented formula: `w[k] = 0.42 - 0.5 cos(2πk/(M-1)) + 0.08 cos(4πk/(M-1))`,
with the scipy convention that a length-1 window is `[1]`. -/
noncomputable def blackman (M : ℕ) (k : ℕ) : ℝ :=
  if M = 1 then 1
  else 0.42 - 0.5 * Real.cos (2 * Real.pi * k / ((M : ℝ) - 1))
       + 0.08 * Real.cos (4 * Real.pi * k / ((M : ℝ) - 1))

/-- The window used by `phase_registration_optim`
(opti_registration.py lines 111-116): the separable Blackman taper
`u[:, None] * v[None, :]` when `phase` is true, the scalar `1` otherwise. -/
noncomputable def registration_window (H W : ℕ) (phase : Bool) : Fin H → Fin W → ℝ :=
  if phase then fun r c => blackman H r * blackman W c else fun _ _ => 1

/-- Model of `scipy.fft.fftfreq` (external collaborator), modelled from its documented
semantics: the standard non-shifted DFT sample-frequency layout. -/
noncomputable def scipy_fftfreq (n : ℕ) (k : ℕ) : ℝ :=
  if k < (n - 1) / 2 + 1 then (k : ℝ) / n else ((k : ℝ) - n) / n

/-- Model of `scipy.fft.fftn` on a 2D array (external collaborator), modelled from the
standard forward 2D DFT definition. -/
noncomputable def fftn2 {H W : ℕ} (A : Fin H → Fin W → ℂ) : Fin H → Fin W → ℂ :=
  fun k l => ∑ r, ∑ c, A r c *
    Complex.exp (-(2 * Real.pi * Complex.I) *
      (((k : ℕ) : ℂ) * ((r : ℕ) : ℂ) / (H : ℂ) + ((l : ℕ) : ℂ) * ((c : ℕ) : ℂ) / (W : ℂ)))

/-- Model of `scipy.fft.ifftn` on a 2D array (external collaborator), modelled from the
standard inverse 2D DFT definition (with the `1/(H*W)` normalization). -/
noncomputable def ifftn2 {H W : ℕ} (X : Fin H → Fin W → ℂ) : Fin H → Fin W → ℂ :=
  fun m n => (∑ k, ∑ l, X k l *
    Complex.exp ((2 * Real.pi * Complex.I) *
      (((m : ℕ) : ℂ) * ((k : ℕ) : ℂ) / (H : ℂ) + ((n : ℕ) : ℂ) * ((l : ℕ) : ℂ) / (W : ℂ)))) /
    ((H * W : ℕ) : ℂ)

/-- Index map of `np.fft.fftshift` along one axis: `y[k] = x[(k - n//2) mod n]`,
written with the non-negative offset `n - n//2`. -/
def fftshift_idx (n : ℕ) (i : Fin n) : Fin n :=
  ⟨((i : ℕ) + (n - n / 2)) % n, Nat.mod_lt _ i.pos⟩

/-- Model of `scipy.fft.fftshift` on a 2D array (external collaborator): shift along
both axes. -/
def fftshift2 {H W : ℕ} {α : Type} (X : Fin H → Fin W → α) : Fin H → Fin W → α :=
  fun i j => X (fftshift_idx H i) (fftshift_idx W j)

/-- Value lookup used by the argmax model: out-of-range indices give `0`
(they are never reached on the row-major index list). -/
noncomputable def flat_val {H W : ℕ} (f : Fin H → Fin W → ℝ) (p : ℕ × ℕ) : ℝ :=
  if h : p.1 < H ∧ p.2 < W then f ⟨p.1, h.1⟩ ⟨p.2, h.2⟩ else 0

/-- Model of `np.unravel_index(np.argmax(f), f.shape)` (external collaborator):
the row-major-first index of the maximum entry, modelled as a fold over the
row-major index list keeping the earliest strict maximum. -/
noncomputable def np_argmax2 {H W : ℕ} (f : Fin H → Fin W → ℝ) : ℕ × ℕ :=
  ((List.range H).flatMap fun i => (List.range W).map fun j => (i, j)).foldl
    (fun best p => if flat_val f best < flat_val f p then p else best) (0, 0)

/-- One axis of the coarse-correlator spans
`fftshift(fftfreq(n)) * n` (opti_registration.py lines 129-130). -/
noncomputable def fftshift_span (n : ℕ) (i : ℕ) : ℝ :=
  scipy_fftfreq n ((i + (n - n / 2)) % n) * n

/-- The cross-power spectrum `ab` computed by `phase_registration_optim`
(opti_registration.py lines 111-123): window the inputs, FFT both,
multiply elementwise by the conjugate, and optionally normalize each entry
to unit magnitude when `phase` is true. -/
noncomputable def cross_spectrum {H W : ℕ} (A B : Fin H → Fin W → ℝ) (phase : Bool) :
    Fin H → Fin W → ℂ :=
  let window := registration_window H W phase
  let a := fftn2 fun r c => ((A r c * window r c : ℝ) : ℂ)
  let b := fftn2 fun r c => ((B r c * window r c : ℝ) : ℂ)
  let ab := fun r c => a r c * (starRingEnd ℂ) (b r c)
  if phase then fun r c => ab r c / ((Complex.abs (ab r c) : ℝ) : ℂ) else ab

/-- The coarse integer-pixel starting guess `argmax`
(opti_registration.py lines 125-134): the row-major argmax of
`|ifftn(fftshift(ab))|` after a final `fftshift`, mapped through the
shifted frequency spans. -/
noncomputable def coarse_start {H W : ℕ} (A B : Fin H → Fin W → ℝ) (phase : Bool) : ℝ × ℝ :=
  let ab := cross_spectrum A B phase
  let phase_corr : Fin H → Fin W → ℝ :=
    fftshift2 fun m n => Complex.abs (ifftn2 (fftshift2 ab) m n)
  let idx := np_argmax2 phase_corr
  (fftshift_span H idx.1, fftshift_span W idx.2)

/-- The optimizer objective `cost(xy, ab) = -abs(dft_dot(ab, xy))`
(opti_registration.py lines 136-137), with the spectrum array made an
explicit argument instead of a closure capture. -/
noncomputable def cost {H W : ℕ} (ab : Fin H → Fin W → ℂ) (xy : ℝ × ℝ) : ℝ :=
  -(Complex.abs (dft_dot ab xy))

/-- The optimizer jacobian `jac(xy, ab) = -real(grad_dft(ab, xy))`
(opti_registration.py lines 139-140). -/
noncomputable def jac {H W : ℕ} (ab : Fin H → Fin W → ℂ) (xy : ℝ × ℝ) : ℝ × ℝ :=
  (-((grad_dft ab xy).1.re), -((grad_dft ab xy).2.re))

/-- The result object returned by `scipy.optimize.minimize` with
`method='BFGS'`: the argmin `x`, the final objective value `fun` (called `f`
here since `fun` is a Lean keyword), the inverse-Hessian estimate
`hess_inv`, and the convergence flag `success`. -/
structure OptimizeResult where
  x : ℝ × ℝ
  f : ℝ
  hess_inv : Matrix (Fin 2) (Fin 2) ℝ
  success : Bool

/-- The type of the external `scipy.optimize.minimize` collaborator, taking
the objective, the jacobian and the starting point.  It is kept abstract:
the registration code is verified for every possible optimizer outcome. -/
def MinimizeFn : Type :=
  ((ℝ × ℝ) → ℝ) → ((ℝ × ℝ) → ℝ × ℝ) → (ℝ × ℝ) → OptimizeResult

/-- Model of `np.mean` of a 2D array (external collaborator). -/
noncomputable def np_mean {H W : ℕ} (A : Fin H → Fin W → ℝ) : ℝ :=
  (∑ r, ∑ c, A r c) / (H * W)

/-- Embedding of `phase_registration_optim` (opti_registration.py lines 86-163), with the
external `scipy.optimize.minimize` call abstracted as the `minimize` oracle
(the `verbose` flag only prints and is omitted).  Returns
`(-res.x, (1, C_theta))` where
`C_theta = trace(res.hess_inv) * sigma2` and
`sigma2 = mean(A²+B²) - (mean(A)-mean(B))² + 2*res.fun/A.size`. -/
noncomputable def phase_registration_optim {H W : ℕ} (minimize : MinimizeFn)
    (A B : Fin H → Fin W → ℝ) (phase : Bool) : (ℝ × ℝ) × (ℝ × ℝ) :=
  let ab := cross_spectrum A B phase
  let res := minimize (cost ab) (jac ab) (coarse_start A B phase)
  let a_moins_b_2 := (np_mean A - np_mean B) ^ 2
  let sigma2 := np_mean (fun r c => A r c ^ 2 + B r c ^ 2) - a_moins_b_2 + 2 * res.f / (H * W)
  let C_theta := Matrix.trace res.hess_inv * sigma2
  ((-res.x.1, -res.x.2), (1, C_theta))

/-- Claim C4: the displacement returned by `phase_registration_optim` is
exactly the negation of the `(dy, dx)` argmax found by the quasi-Newton
optimizer: the raw optimizer result `res.x` is negated before being
returned. -/
theorem phase_registration_optim_neg_argmax {H W : ℕ} (minimize : MinimizeFn)
    (A B : Fin H → Fin W → ℝ) (phase : Bool) :
    (phase_registration_optim minimize A B phase).1 =
      (-(minimize (cost (cross_spectrum A B phase)) (jac (cross_spectrum A B phase))
          (coarse_start A B phase)).x.1,
       -(minimize (cost (cross_spectrum A B phase)) (jac (cross_spectrum A B phase))
          (coarse_start A B phase)).x.2) := rfl

/-- Claim C10: the uncertainty tuple returned by `phase_registration_optim`
always has the literal constant `1` as its first component, for every pair
of same-shape inputs, every mode and every optimizer outcome. -/
theorem phase_registration_optim_first_uncertainty_one {H W : ℕ} (minimize : MinimizeFn)
    (A B : Fin H → Fin W → ℝ) (phase : Bool) :
    (phase_registration_optim minimize A B phase).2.1 = 1 := rfl

/-- Claim C8: the uncertainty value returned by `phase_registration_optim`
equals `trace(res.hess_inv) * sigma2` with
`sigma2 = mean(A²+B²) - (mean(A)-mean(B))² + 2*res.fun/size`; it is a pure
function of the inputs and the optimizer result (hence deterministic). -/
theorem phase_registration_optim_uncertainty {H W : ℕ} (minimize : MinimizeFn)
    (A B : Fin H → Fin W → ℝ) (phase : Bool) :
    (phase_registration_optim minimize A B phase).2.2 =
      Matrix.trace (minimize (cost (cross_spectrum A B phase))
          (jac (cross_spectrum A B phase)) (coarse_start A B phase)).hess_inv *
        ((∑ r, ∑ c, (A r c ^ 2 + B r c ^ 2)) / (H * W)
          - ((∑ r, ∑ c, A r c) / (H * W) - (∑ r, ∑ c, B r c) / (H * W)) ^ 2
          + 2 * (minimize (cost (cross_spectrum A B phase))
              (jac (cross_spectrum A B phase)) (coarse_start A B phase)).f / (H * W)) := rfl

/-- Claim C7: `phase_registration_optim` treats optimizer non-convergence as
a soft degradation: its embedding returns a plain `(displacement,
uncertainty)` pair (no error variant), and the returned value does not
inspect the optimizer's `success` flag — any two optimizer outcomes that
agree on `x`, `fun` and `hess_inv` (in particular one converged and one
not) produce identical results. -/
theorem phase_registration_optim_success_agnostic {H W : ℕ}
    (A B : Fin H → Fin W → ℝ) (phase : Bool) (m₁ m₂ : MinimizeFn)
    (h : ∀ c j s, (m₁ c j s).x = (m₂ c j s).x ∧ (m₁ c j s).f = (m₂ c j s).f ∧
        (m₁ c j s).hess_inv = (m₂ c j s).hess_inv) :
    phase_registration_optim m₁ A B phase = phase_registration_optim m₂ A B phase := by
  obtain ⟨hx, hf, hh⟩ := h (cost (cross_spectrum A B phase))
    (jac (cross_spectrum A B phase)) (coarse_start A B phase)
  simp only [phase_registration_optim]
  rw [hx, hf, hh]

/-- Concrete instance of the C7 theorem: two constant optimizers differing
only in the `success` flag (one reporting non-convergence) give identical
registration results. -/
theorem phase_registration_optim_success_agnostic_witness :
    phase_registration_optim (fun _ _ _ => OptimizeResult.mk (0, 0) 0 1 false)
        (fun (_ : Fin 1) (_ : Fin 1) => (0 : ℝ)) (fun (_ : Fin 1) (_ : Fin 1) => (0 : ℝ)) false
      = phase_registration_optim (fun _ _ _ => OptimizeResult.mk (0, 0) 0 1 true)
        (fun (_ : Fin 1) (_ : Fin 1) => (0 : ℝ)) (fun (_ : Fin 1) (_ : Fin 1) => (0 : ℝ)) false :=
  phase_registration_optim_success_agnostic _ _ false _ _ (fun _ _ _ => ⟨rfl, rfl, rfl⟩)

/-- Counterexample to claim C9: whether the separable Blackman taper is
applied IS determined by the phase-only flag — on 4×4 inputs the window used
by `phase_registration_optim` with `phase = true` differs from the window
with `phase = false` (there is no independent `windowed` option). -/
theorem registration_window_depends_on_phase :
    registration_window 4 4 true ≠ registration_window 4 4 false := by
  intro h
  have h0 := congrFun (congrFun h ⟨0, by norm_num⟩) ⟨0, by norm_num⟩
  have hb : blackman 4 0 = 0 := by
    norm_num [blackman, Real.cos_zero]
  simp only [registration_window, if_true, if_false, Bool.false_eq_true] at h0
  rw [hb] at h0
  norm_num at h0

/-- Claim C9 as amended: `phase_registration_optim` exposes no independent
`windowed` option; the separable Blackman taper is controlled entirely by
the `phase` flag — no window at all when `phase = false` (the default), and
a genuine (non-trivial) taper exactly when `phase = true`, for all image
shapes with both dimensions ≥ 2. -/
theorem registration_window_controlled_by_phase (H W : ℕ) (hH : 2 ≤ H) (hW : 2 ≤ W) :
    registration_window H W false = (fun _ _ => 1)
    ∧ registration_window H W true ≠ (fun _ _ => 1) := by
  constructor
  · rfl
  · intro h
    have h0 := congrFun (congrFun h ⟨0, by omega⟩) ⟨0, by omega⟩
    have hb : blackman H 0 = 0 := by
      have h1 : H ≠ 1 := by omega
      norm_num [blackman, h1, Real.cos_zero]
    simp only [registration_window, if_true] at h0
    rw [hb] at h0
    norm_num at h0

/-- Concrete instance of the amended C9 theorem at shape 4×4. -/
theorem registration_window_controlled_by_phase_witness :
    registration_window 4 4 false = (fun _ _ => 1)
    ∧ registration_window 4 4 true ≠ (fun _ _ => 1) :=
  registration_window_controlled_by_phase 4 4 (by norm_num) (by norm_num)

/-- A dynamically-shaped 2D complex array, used to model the shape behaviour
of the entry point on inputs whose shapes may differ (the `Fin`-indexed
embedding above forces equal shapes by typing).  Only the first
`rows × cols` entries of `data` are meaningful. -/
structure Arr2 where
  rows : ℕ
  cols : ℕ
  data : ℕ → ℕ → ℂ

/-- Elementwise product of two arrays under numpy broadcasting rules
(external collaborator): each axis must match or be 1; otherwise numpy
raises a `ValueError` (operands could not be broadcast). -/
noncomputable def np_broadcast_mul (A B : Arr2) : Except String Arr2 :=
  if (A.rows = B.rows ∨ A.rows = 1 ∨ B.rows = 1) ∧
      (A.cols = B.cols ∨ A.cols = 1 ∨ B.cols = 1) then
    Except.ok ⟨max A.rows B.rows, max A.cols B.cols,
      fun i j => A.data (if A.rows = 1 then 0 else i) (if A.cols = 1 then 0 else j) *
                 B.data (if B.rows = 1 then 0 else i) (if B.cols = 1 then 0 else j)⟩
  else Except.error "operands could not be broadcast together"

/-- Elementwise complex conjugate (numpy `conj`). -/
noncomputable def np_conj (A : Arr2) : Arr2 :=
  ⟨A.rows, A.cols, fun i j => (starRingEnd ℂ) (A.data i j)⟩

/-- Model of `scipy.fft.fftn` on a dynamically-shaped 2D array (external
collaborator), modelled from the standard forward 2D DFT definition;
shape-preserving. -/
noncomputable def fftn_dyn (A : Arr2) : Arr2 :=
  ⟨A.rows, A.cols, fun k l =>
    ∑ r ∈ Finset.range A.rows, ∑ c ∈ Finset.range A.cols,
      A.data r c * Complex.exp (-(2 * Real.pi * Complex.I) *
        ((k : ℂ) * (r : ℂ) / (A.rows : ℂ) + (l : ℂ) * (c : ℂ) / (A.cols : ℂ)))⟩

/-- The input-preparation and cross-power-spectrum stage of
`phase_registration_optim` (opti_registration.py lines 109-123) on
dynamically-shaped inputs: build the window (`blackman` taper if `phase`,
the scalar `1` otherwise, which broadcasts with any shape), FFT both
windowed inputs, then form `ab = a * conj(b)` under broadcasting, with the
optional unit-magnitude normalization.  There is no shape check anywhere:
errors can only come from numpy broadcasting itself. -/
noncomputable def cross_power_spectrum (A B : Arr2) (phase : Bool) : Except String Arr2 :=
  let window : Arr2 :=
    if phase then ⟨A.rows, A.cols, fun r c => ((blackman A.rows r * blackman A.cols c : ℝ) : ℂ)⟩
    else ⟨1, 1, fun _ _ => 1⟩
  match np_broadcast_mul A window with
  | Except.error e => Except.error e
  | Except.ok Aw =>
    match np_broadcast_mul B window with
    | Except.error e => Except.error e
    | Except.ok Bw =>
      let a := fftn_dyn Aw
      let b := fftn_dyn Bw
      match np_broadcast_mul a (np_conj b) with
      | Except.error e => Except.error e
      | Except.ok ab =>
        Except.ok (if phase then
          ⟨ab.rows, ab.cols, fun i j => ab.data i j / ((Complex.abs (ab.data i j) : ℝ) : ℂ)⟩
        else ab)

/-- Claim C5, formalized: for every pair of input arrays of differing
shapes, the registration entry point fails with an explicit
invalid-argument error. -/
def claim_shape_mismatch_fails : Prop :=
  ∀ (A B : Arr2) (phase : Bool), (A.rows, A.cols) ≠ (B.rows, B.cols) →
    ∃ e, cross_power_spectrum A B phase = Except.error e

/-- Counterexample to claim C5: a 2×2 input paired with a 1×2 input
(differing shapes, but numpy-broadcast-compatible) produces a cross-power
spectrum with no error at all — there is no fail-fast shape check. -/
theorem cross_power_spectrum_no_shape_check : ¬ claim_shape_mismatch_fails := by
  intro h
  obtain ⟨e, he⟩ := h ⟨2, 2, fun _ _ => 1⟩ ⟨1, 2, fun _ _ => 1⟩ false (by simp)
  revert he
  norm_num [cross_power_spectrum, np_broadcast_mul, fftn_dyn, np_conj]
  exact fun hcontra => by simp at hcontra

/-- Claim C5 as amended: `phase_registration_optim` performs no input shape
validation — with `phase = false`, any two inputs whose shapes are
broadcast-compatible along each axis (equal or `1`), including inputs of
differing shapes, produce a cross-power spectrum without any error. -/
theorem cross_power_spectrum_broadcastable_ok (A B : Arr2)
    (hr : A.rows = B.rows ∨ A.rows = 1 ∨ B.rows = 1)
    (hc : A.cols = B.cols ∨ A.cols = 1 ∨ B.cols = 1) :
    ∃ C, cross_power_spectrum A B false = Except.ok C := by
  have hr' : max A.rows 1 = max B.rows 1 ∨ A.rows ≤ 1 ∨ B.rows ≤ 1 := by
    rcases hr with h | h | h <;> omega
  have hc' : max A.cols 1 = max B.cols 1 ∨ A.cols ≤ 1 ∨ B.cols ≤ 1 := by
    rcases hc with h | h | h <;> omega
  simp [cross_power_spectrum, np_broadcast_mul, fftn_dyn, np_conj, hr', hc']

/-- Concrete instance of the amended C5 theorem: shapes 2×3 and 2×1 differ
but broadcast, and the computation succeeds. -/
theorem cross_power_spectrum_broadcastable_ok_witness :
    ∃ C, cross_power_spectrum ⟨2, 3, fun _ _ => 1⟩ ⟨2, 1, fun _ _ => 1⟩ false = Except.ok C :=
  cross_power_spectrum_broadcastable_ok _ _ (Or.inl rfl) (Or.inr (Or.inr rfl))

/-- A dynamically-shaped 2D real image, for the `crop` collaborator
(stretchablecorr.py).  Only the first `rows × cols` entries of `data` are
meaningful. -/
structure Image where
  rows : ℕ
  cols : ℕ
  data : ℕ → ℕ → ℝ

/-- Model of `np.around` on a scalar: round half to even (banker's rounding), the
numpy rounding rule. -/
noncomputable def np_around (x : ℝ) : ℤ :=
  if x - ⌊x⌋ < 1 / 2 then ⌊x⌋
  else if 1 / 2 < x - ⌊x⌋ then ⌊x⌋ + 1
  else if Even ⌊x⌋ then ⌊x⌋ else ⌊x⌋ + 1

/-- Python slice semantics `a[start:stop]` on an axis of length `len`:
negative endpoints count from the end, then both are clipped to `[0, len]`.
Returns `(first index, number of elements)`. -/
def sliceBounds (start stop : ℤ) (len : ℕ) : ℕ × ℕ :=
  let s : ℤ := if start < 0 then max 0 ((len : ℤ) + start) else min (len : ℤ) start
  let e : ℤ := if stop < 0 then max 0 ((len : ℤ) + stop) else min (len : ℤ) stop
  (s.toNat, (e - s).toNat)

/-- The payload of the `ValueError("crop out of image bounds", I.shape,
xy_center)` raised by `crop`. -/
structure CropError where
  shape : ℕ × ℕ
  center : ℝ × ℝ

/-- Embedding of `crop` (stretchablecorr.py lines 13-53): round the `(x, y)` center to
integers `(j, i)`, slice the `(2*half_size+1)`-sized square
`I[i-h : i+h+1, j-h : j+h+1]` with Python slice semantics, raise
`ValueError` when the resulting shape is not `(2h+1, 2h+1)`, and otherwise
return the sub-image with the integer center `(i, j)`. -/
noncomputable def crop (I : Image) (xy_center : ℝ × ℝ) (half_size : ℕ) :
    Except CropError (Image × (ℤ × ℤ)) :=
  let j := np_around xy_center.1
  let i := np_around xy_center.2
  let rb := sliceBounds (i - half_size) (i + half_size + 1) I.rows
  let cb := sliceBounds (j - half_size) (j + half_size + 1) I.cols
  let I_crop : Image := ⟨rb.2, cb.2, fun r c => I.data (rb.1 + r) (cb.1 + c)⟩
  if (rb.2, cb.2) ≠ (2 * half_size + 1, 2 * half_size + 1) then
    Except.error ⟨(I.rows, I.cols), xy_center⟩
  else
    Except.ok (I_crop, (i, j))

/-- Claim C6 fails on the code (code bug): on a 10×10 image, the center
`(x, y) = (5, -9)` with `half_size = 1` rounds to row `-9`, whose window
rows `-10..-8` lie entirely outside the image; yet Python's negative-index
slice `I[-10:-7]` silently yields rows `0..2`, the shape check passes, and
`crop` returns `ok` (with a sub-image that is not centered on the request)
instead of raising the boundary error. -/
theorem crop_out_of_bounds_no_error :
    np_around (-9 : ℝ) = -9 ∧
    crop ⟨10, 10, fun _ _ => 0⟩ ((5 : ℝ), (-9 : ℝ)) 1
      = Except.ok (⟨3, 3, fun _ _ => 0⟩, (-9, 5)) := by
  have hf9 : ⌊(-9 : ℝ)⌋ = -9 := by
    rw [Int.floor_eq_iff]
    norm_num
  have hf5 : ⌊(5 : ℝ)⌋ = 5 := by
    rw [Int.floor_eq_iff]
    norm_num
  have h9 : np_around (-9 : ℝ) = -9 := by
    unfold np_around
    rw [hf9]
    norm_num
  have h5 : np_around (5 : ℝ) = 5 := by
    unfold np_around
    rw [hf5]
    norm_num
  refine ⟨h9, ?_⟩
  unfold crop
  norm_num [h5, h9, sliceBounds]
  rfl
